import Mathlib

/-!
Shallow embedding of the `fetchit` service core (NestJS + Prisma + PostgreSQL):
offset pagination (`UsersService.findAll`, `GroupsService.findAll`), cursor
pagination (`UsersService.findAllCursor`), the bulk status transaction
(`UsersService.bulkUpdateStatuses`) and membership removal
(`GroupsService.removeUserFromGroup`), together with the cache-invalidation
calls these operations issue.

The relational store is modelled as lists of rows kept in ascending primary-key
order (`DB.WF`), which is exactly the `ORDER BY id ASC` presentation Prisma's
`findMany` produces; primary keys are unique by the schema (`id SERIAL PRIMARY
KEY`).  A Prisma `$transaction` whose callback throws rolls back, so a failing
operation is embedded as returning the unchanged database together with the
thrown error.  All definitions are executable.
-/

namespace Fetchit

/-- Status enum `UserStatus` from the Prisma schema: `pending | active | blocked`. -/
inductive UserStatus where
  | pending
  | active
  | blocked
deriving DecidableEq

/-- Status enum `GroupStatus` from the Prisma schema: `empty | notEmpty`. -/
inductive GroupStatus where
  | empty
  | notEmpty
deriving DecidableEq

/-- A row of the `users` table (timestamps omitted: no modelled operation reads
or branches on them). -/
structure User where
  id : Nat
  username : String
  status : UserStatus
  groupId : Option Nat
deriving DecidableEq

/-- A row of the `groups` table. -/
structure Group where
  id : Nat
  name : String
  status : GroupStatus
deriving DecidableEq

/-- The relational store: both tables, each kept in ascending-id order. -/
structure DB where
  users : List User
  groups : List Group
deriving DecidableEq

/-- Well-formedness of the store representation: rows are strictly ascending in
their primary key (hence ids are unique, as `SERIAL PRIMARY KEY` guarantees),
and a list in this order is Prisma's `orderBy: { id: 'asc' }` presentation. -/
def DB.WF (db : DB) : Prop :=
  db.users.Pairwise (fun a b => a.id < b.id) ∧
  db.groups.Pairwise (fun a b => a.id < b.id)

instance (db : DB) : Decidable db.WF := by
  unfold DB.WF; infer_instance

/-- Number of accounts whose `groupId` references `gid`
(`tx.user.count({ where: { groupId } })`). -/
def memberCount (db : DB) (gid : Nat) : Nat :=
  (db.users.filter (fun u => u.groupId = some gid)).length

/-- Invariant I1 of the spec: a group's status is `empty` iff its live member
count is zero. -/
def InvariantI1 (db : DB) : Prop :=
  ∀ g ∈ db.groups, (g.status = GroupStatus.empty ↔ memberCount db g.id = 0)

instance (db : DB) : Decidable (InvariantI1 db) := by
  unfold InvariantI1; infer_instance

/-- Error taxonomy: the Nest exceptions thrown by the two services.
`badRequest` surfaces as VALIDATION_ERROR, `notFound` as NOT_FOUND,
`conflict` as CONFLICT. -/
inductive ApiError where
  | badRequest (msg : String)
  | notFound (msg : String)
  | conflict (msg : String)
deriving DecidableEq

/-- Cache-invalidation calls observable on the `CacheService` collaborator:
`invalidateUsersCache` drops the account-list key space, `invalidateGroupsCache`
the group-list key space. -/
inductive CacheEvent where
  | usersList
  | groupsList
deriving DecidableEq

/-! Offset pagination (`findAll` in both services) -/

/-- Payload of `PaginatedResponseDto`. -/
structure Page (α : Type) where
  data : List α
  limit : Nat
  offset : Nat
  total : Nat
deriving DecidableEq

/-- Query `UsersService.findAll`: `findMany({ take: limit, skip: offset, orderBy:
{ id: 'asc' } })` paired with `user.count()`.  The short-TTL read cache in
front of this query is an out-of-scope collaborator; this is the query path. -/
def usersFindAll (db : DB) (limit offset : Nat) : Page User :=
  { data := (db.users.drop offset).take limit
    limit := limit
    offset := offset
    total := db.users.length }

/-- Query `GroupsService.findAll`: same shape over the `groups` table. -/
def groupsFindAll (db : DB) (limit offset : Nat) : Page Group :=
  { data := (db.groups.drop offset).take limit
    limit := limit
    offset := offset
    total := db.groups.length }

/-! Cursor pagination (`UsersService.findAllCursor`) -/

/-- Payload of `CursorPaginatedUsersResponseDto`. -/
structure CursorPage where
  data : List User
  nextCursor : Option Nat
  hasNext : Bool
deriving DecidableEq

/-- The row fetch inside `findAllCursor`.  Without a cursor (or with the JS-falsy
cursor `0`, since the code spreads `...(cursor && { cursor, skip: 1 })`) it is a
plain `take: limit + 1` over the ascending presentation.  With a cursor, Prisma's
positional cursor on PostgreSQL compiles to
`WHERE id >= (SELECT id FROM users WHERE id = cursor) ... OFFSET 1 LIMIT limit+1`:
if no row carries the cursor id the scalar subquery is NULL and no rows
qualify; otherwise the rows from the cursor row onward are taken, the cursor
row itself consumed by `skip: 1`. -/
def cursorFetch (db : DB) (cursor : Option Nat) (limit : Nat) : List User :=
  match cursor with
  | none => db.users.take (limit + 1)
  | some c =>
    if c = 0 then
      db.users.take (limit + 1)
    else if db.users.any (fun u => u.id = c) then
      ((db.users.filter (fun u => c ≤ u.id)).drop 1).take (limit + 1)
    else
      []

/-- Query `UsersService.findAllCursor`: fetch `limit + 1` rows past the cursor,
report `hasNext` when the extra row arrived, drop it from `data`, and emit the
last returned id as `nextCursor`. -/
def findAllCursor (db : DB) (cursor : Option Nat) (limit : Nat) : CursorPage :=
  let fetched := cursorFetch db cursor limit
  let hasNext := decide (limit < fetched.length)
  let data := if hasNext then fetched.dropLast else fetched
  { data := data
    nextCursor := if hasNext then (data.getLast?).map User.id else none
    hasNext := hasNext }

/-! Bulk status transaction (`UsersService.bulkUpdateStatuses`) -/

/-- Error message of the duplicate-id rejection. -/
def duplicateIdsMsg : String := "Duplicate user IDs in request"

/-- Error message enumerating the missing identities:
`` `Users not found: ${missingIds.join(', ')}` ``. -/
def usersNotFoundMsg (missing : List Nat) : String :=
  "Users not found: " ++ String.intercalate ", " (missing.map toString)

/-- The existence probe inside the transaction:
`tx.user.findMany({ where: { id: { in: ids } }, select: { id: true } })`. -/
def existingUsers (db : DB) (ids : List Nat) : List User :=
  db.users.filter (fun u => decide (u.id ∈ ids))

/-- Computation `ids.filter((id) => !existingIds.has(id))` where `existingIds` is the set of
ids returned by the existence probe. -/
def missingIds (db : DB) (ids : List Nat) : List Nat :=
  ids.filter (fun i => decide (i ∉ (existingUsers db ids).map User.id))

/-- First occurrences of a list, in order: the key sequence of a JS `Map`
filled by insertion (`updatesByStatus` iterates statuses in first-insertion
order). -/
def firstKeys : List UserStatus → List UserStatus
  | [] => []
  | s :: rest => s :: firstKeys (rest.filter (fun t => decide (t ≠ s)))
termination_by l => l.length
decreasing_by
  simp only [List.length_cons]
  exact Nat.lt_succ_of_le (List.length_filter_le _ _)

/-- Ids collected for one target status (the JS loop pushes each update's id
onto its status bucket, in list order). -/
def idsForStatus (updates : List (Nat × UserStatus)) (s : UserStatus) : List Nat :=
  (updates.filter (fun p => decide (p.2 = s))).map Prod.fst

/-- The batched write statements the transaction issues: one
`updateMany({ where: { id: { in: userIds } }, data: { status } })` per distinct
target status, in first-insertion order. -/
def bulkStatements (updates : List (Nat × UserStatus)) : List (UserStatus × List Nat) :=
  (firstKeys (updates.map Prod.snd)).map (fun s => (s, idsForStatus updates s))

/-- Effect of one `updateMany` statement on one row. -/
def applyStatement (s : UserStatus) (targetIds : List Nat) (u : User) : User :=
  if u.id ∈ targetIds then { u with status := s } else u

/-- Effect of the statement sequence on the `users` table. -/
def runStatements (users : List User) (stmts : List (UserStatus × List Nat)) : List User :=
  stmts.foldl (fun us st => us.map (applyStatement st.1 st.2)) users

instance {ε α : Type} [DecidableEq ε] [DecidableEq α] : DecidableEq (Except ε α) := fun x y =>
  match x, y with
  | Except.error e, Except.error f =>
    if h : e = f then isTrue (by rw [h]) else isFalse (by intro hh; cases hh; exact h rfl)
  | Except.error _, Except.ok _ => isFalse (by intro hh; cases hh)
  | Except.ok _, Except.error _ => isFalse (by intro hh; cases hh)
  | Except.ok a, Except.ok b =>
    if h : a = b then isTrue (by rw [h]) else isFalse (by intro hh; cases hh; exact h rfl)

/-- Cumulative effect of the statement sequence on a single row. -/
def applyAll (stmts : List (UserStatus × List Nat)) (u : User) : User :=
  stmts.foldl (fun v st => applyStatement st.1 st.2 v) u

/-- Result of `bulkUpdateStatuses`: the database after the call (unchanged when
the transaction rolled back), the returned count or thrown error, and the cache
invalidations issued after a successful commit. -/
structure BulkResult where
  db : DB
  outcome : Except ApiError Nat
  events : List CacheEvent
deriving DecidableEq

/-- Operation `UsersService.bulkUpdateStatuses`.  Duplicate ids are rejected before the
transaction opens; inside the transaction every referenced id must exist or a
`NotFoundException` listing all missing ids aborts (rollback); otherwise the
per-status batched updates run and `updates.length` is returned.  After a
successful commit the service invalidates the account-list cache
(`invalidateUsersCache()` — and only that prefix). -/
def bulkUpdateStatuses (db : DB) (updates : List (Nat × UserStatus)) : BulkResult :=
  let ids := updates.map Prod.fst
  if ids.Nodup then
    if (existingUsers db ids).length = ids.length then
      { db := { db with users := runStatements db.users (bulkStatements updates) }
        outcome := Except.ok updates.length
        events := [CacheEvent.usersList] }
    else
      { db := db
        outcome := Except.error (ApiError.notFound (usersNotFoundMsg (missingIds db ids)))
        events := [] }
  else
    { db := db
      outcome := Except.error (ApiError.badRequest duplicateIdsMsg)
      events := [] }

/-! Membership removal (`GroupsService.removeUserFromGroup`) -/

def groupNotFoundMsg (gid : Nat) : String :=
  "Group with ID " ++ toString gid ++ " not found"

def userNotFoundMsg (uid : Nat) : String :=
  "User with ID " ++ toString uid ++ " not found"

def notMemberMsg (gid uid : Nat) : String :=
  "User " ++ toString uid ++ " is not a member of group " ++ toString gid

/-- The per-row effect of `tx.user.update({ where: { id: userId }, data:
{ groupId: null } })` on the users table. -/
def nullifyGroup (uid : Nat) (v : User) : User :=
  if v.id = uid then { v with groupId := none } else v

/-- Result of `removeUserFromGroup`: the database after the call (unchanged on
rollback), the thrown error if any, and the cache invalidations issued after a
successful commit. -/
structure RemoveResult where
  db : DB
  outcome : Option ApiError
  events : List CacheEvent
deriving DecidableEq

/-- Operation `GroupsService.removeUserFromGroup`.  Inside one transaction: the group
must exist, the user must exist, and the user's current `groupId` must equal
`groupId` (else conflict); then, under a `SELECT ... FOR UPDATE` row lock on the
group (a concurrency device with no single-threaded state effect), the user's
`groupId` is set to null, the remaining members are counted, and the group's
status is set to `empty` when that count is zero.  After commit both list-cache
key spaces are invalidated. -/
def removeUserFromGroup (db : DB) (groupId userId : Nat) : RemoveResult :=
  match db.groups.find? (fun g => g.id = groupId) with
  | none =>
    { db := db, outcome := some (ApiError.notFound (groupNotFoundMsg groupId)), events := [] }
  | some _ =>
    match db.users.find? (fun u => u.id = userId) with
    | none =>
      { db := db, outcome := some (ApiError.notFound (userNotFoundMsg userId)), events := [] }
    | some u =>
      if u.groupId = some groupId then
        let users' := db.users.map
          (fun v => if v.id = userId then { v with groupId := none } else v)
        let remaining := (users'.filter (fun v => v.groupId = some groupId)).length
        let groups' :=
          if remaining = 0 then
            db.groups.map
              (fun g => if g.id = groupId then { g with status := GroupStatus.empty } else g)
          else
            db.groups
        { db := { users := users', groups := groups' }
          outcome := none
          events := [CacheEvent.usersList, CacheEvent.groupsList] }
      else
        { db := db
          outcome := some (ApiError.conflict (notMemberMsg groupId userId))
          events := [] }

/-! Spec-side description used to state the cursor-pagination claim -/

/-- The rows the spec says a cursor page draws from: all rows when the cursor
is absent, otherwise the rows whose identity is strictly greater than the
cursor value. -/
def rowsAfter (db : DB) (cursor : Option Nat) : List User :=
  match cursor with
  | none => db.users
  | some c => db.users.filter (fun u => decide (c < u.id))

/-! Concrete data used by witnesses and counterexamples -/

/-- A small well-formed store: group 1 has two members, group 2 one member,
group 3 none; user id 4 is a gap (a deleted identity). -/
def exDb : DB :=
  { users :=
      [ { id := 1, username := "alice", status := UserStatus.pending, groupId := some 1 }
      , { id := 2, username := "bob", status := UserStatus.active, groupId := some 1 }
      , { id := 3, username := "carol", status := UserStatus.active, groupId := some 2 }
      , { id := 5, username := "dave", status := UserStatus.blocked, groupId := none } ]
    groups :=
      [ { id := 1, name := "g1", status := GroupStatus.notEmpty }
      , { id := 2, name := "g2", status := GroupStatus.notEmpty }
      , { id := 3, name := "g3", status := GroupStatus.empty } ] }

/-! Helper lemmas -/

instance : Fintype UserStatus where
  elems := {UserStatus.pending, UserStatus.active, UserStatus.blocked}
  complete := by intro x; cases x <;> decide

theorem UserStatus.nodup_length_le {l : List UserStatus} (h : l.Nodup) : l.length ≤ 3 := by
  have hc : l.length ≤ Fintype.card UserStatus := List.Nodup.length_le_card h
  have h3 : Fintype.card UserStatus = 3 := rfl
  omega

theorem users_id_nodup {db : DB} (h : db.WF) : (db.users.map User.id).Nodup := by
  have hp : (db.users.map User.id).Pairwise (· < ·) := List.pairwise_map.2 h.1
  exact hp.imp Nat.ne_of_lt

theorem groups_id_nodup {db : DB} (h : db.WF) : (db.groups.map Group.id).Nodup := by
  have hp : (db.groups.map Group.id).Pairwise (· < ·) := List.pairwise_map.2 h.2
  exact hp.imp Nat.ne_of_lt

theorem user_eq_of_id_eq {db : DB} (h : db.WF) {u v : User}
    (hu : u ∈ db.users) (hv : v ∈ db.users) (hid : u.id = v.id) : u = v :=
  List.inj_on_of_nodup_map (users_id_nodup h) hu hv hid

theorem find?_user_eq {db : DB} (h : db.WF) {u : User} (hu : u ∈ db.users) :
    db.users.find? (fun v => v.id = u.id) = some u := by
  cases hfind : db.users.find? (fun v => v.id = u.id) with
  | none =>
    rw [List.find?_eq_none] at hfind
    exact absurd (by simp) (hfind u hu)
  | some w =>
    have hw : w ∈ db.users := List.mem_of_find?_eq_some hfind
    have hp : w.id = u.id := by simpa using List.find?_some hfind
    rw [user_eq_of_id_eq h hw hu hp]

theorem find?_group_eq {db : DB} (h : db.WF) {g : Group} (hg : g ∈ db.groups) :
    db.groups.find? (fun x => x.id = g.id) = some g := by
  cases hfind : db.groups.find? (fun x => x.id = g.id) with
  | none =>
    rw [List.find?_eq_none] at hfind
    exact absurd (by simp) (hfind g hg)
  | some w =>
    have hw : w ∈ db.groups := List.mem_of_find?_eq_some hfind
    have hp : w.id = g.id := by simpa using List.find?_some hfind
    rw [List.inj_on_of_nodup_map (groups_id_nodup h) hw hg hp]

theorem mem_firstKeys (l : List UserStatus) (x : UserStatus) : x ∈ firstKeys l ↔ x ∈ l := by
  match l with
  | [] => simp [firstKeys]
  | s :: rest =>
    have ih := mem_firstKeys (rest.filter (fun t => decide (t ≠ s))) x
    rw [firstKeys]
    by_cases hx : x = s
    · subst hx; simp
    · simp only [List.mem_cons, ih, List.mem_filter, decide_eq_true_eq]
      constructor
      · rintro (rfl | ⟨hr, _⟩)
        · exact absurd rfl hx
        · exact Or.inr hr
      · rintro (rfl | hr)
        · exact absurd rfl hx
        · exact Or.inr ⟨hr, hx⟩
termination_by l.length
decreasing_by
  simp only [List.length_cons]
  exact Nat.lt_succ_of_le (List.length_filter_le _ _)

theorem nodup_firstKeys (l : List UserStatus) : (firstKeys l).Nodup := by
  match l with
  | [] => simp [firstKeys]
  | s :: rest =>
    have ih := nodup_firstKeys (rest.filter (fun t => decide (t ≠ s)))
    rw [firstKeys]
    refine List.nodup_cons.2 ⟨?_, ih⟩
    intro hmem
    have := (mem_firstKeys _ s).1 hmem
    simp at this
termination_by l.length
decreasing_by
  simp only [List.length_cons]
  exact Nat.lt_succ_of_le (List.length_filter_le _ _)

theorem runStatements_eq_map (stmts : List (UserStatus × List Nat)) (users : List User) :
    runStatements users stmts = users.map (applyAll stmts) := by
  induction stmts generalizing users with
  | nil =>
    simp only [runStatements, List.foldl_nil]
    have : applyAll [] = id := rfl
    rw [this, List.map_id]
  | cons st rest ih =>
    simp only [runStatements, List.foldl_cons] at *
    rw [ih (users.map (applyStatement st.1 st.2)), List.map_map]
    rfl

theorem applyStatement_id (s : UserStatus) (ids : List Nat) (u : User) :
    (applyStatement s ids u).id = u.id := by
  unfold applyStatement; split <;> rfl

theorem applyStatement_username (s : UserStatus) (ids : List Nat) (u : User) :
    (applyStatement s ids u).username = u.username := by
  unfold applyStatement; split <;> rfl

theorem applyStatement_groupId (s : UserStatus) (ids : List Nat) (u : User) :
    (applyStatement s ids u).groupId = u.groupId := by
  unfold applyStatement; split <;> rfl

theorem applyAll_id (stmts : List (UserStatus × List Nat)) (u : User) :
    (applyAll stmts u).id = u.id := by
  induction stmts generalizing u with
  | nil => rfl
  | cons st rest ih =>
    simp only [applyAll, List.foldl_cons] at *
    rw [ih (applyStatement st.1 st.2 u), applyStatement_id]

theorem applyAll_username (stmts : List (UserStatus × List Nat)) (u : User) :
    (applyAll stmts u).username = u.username := by
  induction stmts generalizing u with
  | nil => rfl
  | cons st rest ih =>
    simp only [applyAll, List.foldl_cons] at *
    rw [ih (applyStatement st.1 st.2 u), applyStatement_username]

theorem applyAll_groupId (stmts : List (UserStatus × List Nat)) (u : User) :
    (applyAll stmts u).groupId = u.groupId := by
  induction stmts generalizing u with
  | nil => rfl
  | cons st rest ih =>
    simp only [applyAll, List.foldl_cons] at *
    rw [ih (applyStatement st.1 st.2 u), applyStatement_groupId]

theorem applyAll_of_not_mem (stmts : List (UserStatus × List Nat)) (u : User)
    (h : ∀ st ∈ stmts, u.id ∉ st.2) : applyAll stmts u = u := by
  induction stmts with
  | nil => rfl
  | cons st rest ih =>
    have hst : applyStatement st.1 st.2 u = u := by
      unfold applyStatement
      rw [if_neg (h st (List.mem_cons_self _ _))]
    simp only [applyAll, List.foldl_cons, hst]
    exact ih (fun st' hst' => h st' (List.mem_cons_of_mem _ hst'))

theorem applyAll_status (stmts : List (UserStatus × List Nat)) (u : User) (s : UserStatus)
    (hmem : ∃ st ∈ stmts, st.1 = s ∧ u.id ∈ st.2)
    (honly : ∀ st ∈ stmts, u.id ∈ st.2 → st.1 = s) :
    (applyAll stmts u).status = s := by
  induction stmts generalizing u with
  | nil => obtain ⟨st, hst, -⟩ := hmem; cases hst
  | cons st rest ih =>
    by_cases hu : u.id ∈ st.2
    · have hs : st.1 = s := honly st (List.mem_cons_self _ _) hu
      have happ : applyStatement st.1 st.2 u = { u with status := s } := by
        unfold applyStatement
        rw [if_pos hu, hs]
      simp only [applyAll, List.foldl_cons, happ]
      by_cases hrest : ∀ st' ∈ rest, u.id ∉ st'.2
      · have := applyAll_of_not_mem rest { u with status := s }
          (fun st' h' => hrest st' h')
        rw [applyAll] at this
        rw [this]
      · push_neg at hrest
        obtain ⟨st', hst', hu'⟩ := hrest
        have : (applyAll rest { u with status := s }).status = s := by
          refine ih { u with status := s } ?_ ?_
          · exact ⟨st', hst', honly st' (List.mem_cons_of_mem _ hst') hu', hu'⟩
          · exact fun st'' h'' hu'' => honly st'' (List.mem_cons_of_mem _ h'') hu''
        rw [applyAll] at this
        exact this
    · have happ : applyStatement st.1 st.2 u = u := by
        unfold applyStatement; rw [if_neg hu]
      simp only [applyAll, List.foldl_cons, happ]
      obtain ⟨st', hst', hs', hu'⟩ := hmem
      rcases List.mem_cons.1 hst' with rfl | hst'
      · exact absurd hu' hu
      · have : (applyAll rest u).status = s := by
          refine ih u ⟨st', hst', hs', hu'⟩ ?_
          exact fun st'' h'' hu'' => honly st'' (List.mem_cons_of_mem _ h'') hu''
        rw [applyAll] at this
        exact this

theorem pair_snd_unique {ups : List (Nat × UserStatus)} (h : (ups.map Prod.fst).Nodup)
    {i : Nat} {s t : UserStatus} (hs : (i, s) ∈ ups) (ht : (i, t) ∈ ups) : s = t := by
  have := List.inj_on_of_nodup_map h hs ht rfl
  exact congrArg Prod.snd this

theorem mem_idsForStatus {ups : List (Nat × UserStatus)} {s : UserStatus} {i : Nat} :
    i ∈ idsForStatus ups s ↔ ∃ p ∈ ups, p.1 = i ∧ p.2 = s := by
  simp only [idsForStatus, List.mem_map, List.mem_filter, decide_eq_true_eq]
  constructor
  · rintro ⟨p, ⟨hp, hps⟩, rfl⟩
    exact ⟨p, hp, rfl, hps⟩
  · rintro ⟨p, hp, rfl, hps⟩
    exact ⟨p, ⟨hp, hps⟩, rfl⟩

theorem existing_map_id_nodup {db : DB} (h : db.WF) (ids : List Nat) :
    ((existingUsers db ids).map User.id).Nodup := by
  have hsub : List.Sublist ((existingUsers db ids).map User.id) (db.users.map User.id) :=
    (List.filter_sublist _).map User.id
  exact (users_id_nodup h).sublist hsub

theorem mem_existing_map_id {db : DB} {ids : List Nat} {i : Nat} :
    i ∈ (existingUsers db ids).map User.id ↔ i ∈ ids ∧ ∃ u ∈ db.users, u.id = i := by
  simp only [existingUsers, List.mem_map, List.mem_filter, decide_eq_true_eq]
  constructor
  · rintro ⟨u, ⟨hu, hin⟩, rfl⟩
    exact ⟨hin, u, hu, rfl⟩
  · rintro ⟨hin, u, hu, rfl⟩
    exact ⟨u, ⟨hu, hin⟩, rfl⟩

theorem existing_length_eq {db : DB} (h : db.WF) {ids : List Nat} (hnd : ids.Nodup)
    (hall : ∀ i ∈ ids, ∃ u ∈ db.users, u.id = i) :
    (existingUsers db ids).length = ids.length := by
  have h1 : List.Subperm ((existingUsers db ids).map User.id) ids := by
    refine (existing_map_id_nodup h ids).subperm ?_
    intro i hi
    exact (mem_existing_map_id.1 hi).1
  have h2 : List.Subperm ids ((existingUsers db ids).map User.id) := by
    refine hnd.subperm ?_
    intro i hi
    exact mem_existing_map_id.2 ⟨hi, hall i hi⟩
  have := Nat.le_antisymm h1.length_le h2.length_le
  simpa using this

theorem existing_length_lt {db : DB} (h : db.WF) {ids : List Nat} (hnd : ids.Nodup)
    {i0 : Nat} (hi0 : i0 ∈ ids) (hmiss : ∀ u ∈ db.users, u.id ≠ i0) :
    (existingUsers db ids).length < ids.length := by
  have hnot : i0 ∉ (existingUsers db ids).map User.id := by
    intro hc
    obtain ⟨-, u, hu, hid⟩ := mem_existing_map_id.1 hc
    exact hmiss u hu hid
  have hsub : List.Subperm ((existingUsers db ids).map User.id) (ids.erase i0) := by
    refine (existing_map_id_nodup h ids).subperm ?_
    intro x hx
    have hxids : x ∈ ids := (mem_existing_map_id.1 hx).1
    have hxne : x ≠ i0 := fun he => hnot (he ▸ hx)
    exact (List.mem_erase_of_ne hxne).2 hxids
  have hlen : ((existingUsers db ids).map User.id).length ≤ (ids.erase i0).length :=
    hsub.length_le
  rw [List.length_map] at hlen
  rw [List.length_erase_of_mem hi0] at hlen
  have hpos : 0 < ids.length := List.length_pos.2 (List.ne_nil_of_mem hi0)
  omega

theorem missingIds_eq {db : DB} {ids : List Nat} :
    missingIds db ids = ids.filter (fun i => decide (∀ u ∈ db.users, u.id ≠ i)) := by
  unfold missingIds
  refine List.filter_congr ?_
  intro i hi
  simp only [decide_eq_decide]
  rw [mem_existing_map_id]
  constructor
  · intro hne u hu hid
    exact hne ⟨hi, u, hu, hid⟩
  · rintro hz ⟨-, u, hu, hid⟩
    exact hz u hu hid

theorem filter_length_map_eq {l : List User} {f : User → User} {p : User → Bool}
    (h : ∀ u ∈ l, p (f u) = p u) :
    ((l.map f).filter p).length = (l.filter p).length := by
  induction l with
  | nil => rfl
  | cons u rest ih =>
    have hu := h u (List.mem_cons_self _ _)
    have ihr := ih (fun v hv => h v (List.mem_cons_of_mem _ hv))
    simp only [List.map_cons, List.filter_cons, hu]
    cases p u <;> simp [ihr]

theorem pairwise_id_map {l : List User} {f : User → User}
    (hid : ∀ u, (f u).id = u.id) (h : l.Pairwise (fun a b => a.id < b.id)) :
    (l.map f).Pairwise (fun a b => a.id < b.id) := by
  refine List.Pairwise.map f ?_ h
  intro a b hab
  rw [hid, hid]
  exact hab

theorem pairwise_gid_map {l : List Group} {f : Group → Group}
    (hid : ∀ g, (f g).id = g.id) (h : l.Pairwise (fun a b => a.id < b.id)) :
    (l.map f).Pairwise (fun a b => a.id < b.id) := by
  refine List.Pairwise.map f ?_ h
  intro a b hab
  rw [hid, hid]
  exact hab

theorem filter_ge_of_mem {l : List User} (hs : l.Pairwise (fun a b => a.id < b.id))
    {c : Nat} {uc : User} (huc : uc ∈ l) (hid : uc.id = c) :
    l.filter (fun u => decide (c ≤ u.id)) = uc :: l.filter (fun u => decide (c < u.id)) := by
  induction l with
  | nil => cases huc
  | cons v rest ih =>
    have hv := List.pairwise_cons.1 hs
    rcases List.mem_cons.1 huc with rfl | hmem
    · rw [List.filter_cons, List.filter_cons]
      have h1 : decide (c ≤ uc.id) = true := by simp [hid]
      have h2 : decide (c < uc.id) = false := by simp [hid]
      rw [h1, h2]
      simp only [if_true, Bool.false_eq_true, if_false]
      congr 1
      refine List.filter_congr ?_
      intro w hw
      have hlt : c < w.id := hid ▸ hv.1 w hw
      simp [Nat.le_of_lt hlt, hlt]
    · have hvc : v.id < c := hid ▸ hv.1 uc hmem
      rw [List.filter_cons, List.filter_cons]
      have h1 : decide (c ≤ v.id) = false := by simp; omega
      have h2 : decide (c < v.id) = false := by simp; omega
      rw [h1, h2]
      simp only [Bool.false_eq_true, if_false]
      exact ih hv.2 hmem

theorem fetched_length_lt_iff (rows : List User) (limit : Nat) :
    limit < (rows.take (limit + 1)).length ↔ limit < rows.length := by
  rw [List.length_take]
  omega

theorem page_data_eq_take (rows : List User) (limit : Nat) :
    (if decide (limit < (rows.take (limit + 1)).length) = true
      then (rows.take (limit + 1)).dropLast
      else rows.take (limit + 1)) = rows.take limit := by
  by_cases h : limit < rows.length
  · have hfull : (rows.take (limit + 1)).length = limit + 1 := by
      rw [List.length_take]; omega
    rw [if_pos (by simpa [fetched_length_lt_iff] using h)]
    rw [List.dropLast_eq_take, hfull]
    simp only [Nat.add_sub_cancel]
    rw [List.take_take]
    congr 1
    omega
  · rw [if_neg (by simpa [fetched_length_lt_iff] using h)]
    have h1 : rows.take (limit + 1) = rows := List.take_of_length_le (by omega)
    have h2 : rows.take limit = rows := List.take_of_length_le (by omega)
    rw [h1, h2]

theorem cursorFetch_eq_rowsAfter {db : DB} (hwf : db.WF) (cursor : Option Nat) (limit : Nat)
    (hcur : cursor = none ∨ ∃ c, cursor = some c ∧ 1 ≤ c ∧ ∃ u ∈ db.users, u.id = c) :
    cursorFetch db cursor limit = (rowsAfter db cursor).take (limit + 1) := by
  rcases hcur with rfl | ⟨c, rfl, hc1, u, hu, hid⟩
  · rfl
  · have hc0 : ¬ c = 0 := by omega
    have hany : db.users.any (fun u => u.id = c) = true := by
      rw [List.any_eq_true]
      exact ⟨u, hu, by simp [hid]⟩
    simp only [cursorFetch]
    rw [if_neg hc0, if_pos hany]
    have hfil := filter_ge_of_mem hwf.1 hu hid
    rw [hfil]
    rfl

theorem remove_success_eq {db : DB} (hwf : db.WF) {gid uid : Nat} {g0 : Group} {u0 : User}
    (hg : g0 ∈ db.groups) (hgid : g0.id = gid)
    (hu : u0 ∈ db.users) (huid : u0.id = uid)
    (hmem : u0.groupId = some gid) :
    removeUserFromGroup db gid uid =
      { db :=
          { users := db.users.map (nullifyGroup uid)
            groups :=
              if ((db.users.map (nullifyGroup uid)).filter
                    (fun v => v.groupId = some gid)).length = 0 then
                db.groups.map
                  (fun g => if g.id = gid then { g with status := GroupStatus.empty } else g)
              else
                db.groups }
        outcome := none
        events := [CacheEvent.usersList, CacheEvent.groupsList] } := by
  subst hgid
  subst huid
  simp only [removeUserFromGroup, find?_group_eq hwf hg, find?_user_eq hwf hu]
  rw [if_pos hmem]
  rfl

theorem remove_group_not_found {db : DB} {gid uid : Nat}
    (hall : ∀ g ∈ db.groups, g.id ≠ gid) :
    removeUserFromGroup db gid uid =
      { db := db, outcome := some (ApiError.notFound (groupNotFoundMsg gid)), events := [] } := by
  have hnone : db.groups.find? (fun g => g.id = gid) = none := by
    rw [List.find?_eq_none]
    intro g hg
    simp [hall g hg]
  simp only [removeUserFromGroup, hnone]

theorem remove_user_not_found {db : DB} (hwf : db.WF) {gid uid : Nat} {g0 : Group}
    (hg : g0 ∈ db.groups) (hgid : g0.id = gid)
    (hall : ∀ u ∈ db.users, u.id ≠ uid) :
    removeUserFromGroup db gid uid =
      { db := db, outcome := some (ApiError.notFound (userNotFoundMsg uid)), events := [] } := by
  subst hgid
  have hnone : db.users.find? (fun u => u.id = uid) = none := by
    rw [List.find?_eq_none]
    intro u hu
    simp [hall u hu]
  simp only [removeUserFromGroup, find?_group_eq hwf hg, hnone]

theorem remove_conflict {db : DB} (hwf : db.WF) {gid uid : Nat} {g0 : Group} {u0 : User}
    (hg : g0 ∈ db.groups) (hgid : g0.id = gid)
    (hu : u0 ∈ db.users) (huid : u0.id = uid)
    (hmem : u0.groupId ≠ some gid) :
    removeUserFromGroup db gid uid =
      { db := db, outcome := some (ApiError.conflict (notMemberMsg gid uid)), events := [] } := by
  subst hgid
  subst huid
  simp only [removeUserFromGroup, find?_group_eq hwf hg, find?_user_eq hwf hu]
  rw [if_neg hmem]

theorem nullifyGroup_id (uid : Nat) (v : User) : (nullifyGroup uid v).id = v.id := by
  unfold nullifyGroup; split <;> rfl

theorem memberCount_pos {db : DB} {u0 : User} (hu : u0 ∈ db.users) {gid : Nat}
    (hmem : u0.groupId = some gid) : memberCount db gid ≠ 0 := by
  unfold memberCount
  have : u0 ∈ db.users.filter (fun u => u.groupId = some gid) :=
    List.mem_filter.2 ⟨hu, by simp [hmem]⟩
  have := List.ne_nil_of_mem this
  intro hlen
  exact this (List.eq_nil_of_length_eq_zero hlen)

theorem filter_nullify_other {db : DB} (hwf : db.WF) {u0 : User} (hu : u0 ∈ db.users)
    {gid : Nat} (hmem : u0.groupId = some gid) {h : Nat} (hne : h ≠ gid) :
    ((db.users.map (nullifyGroup u0.id)).filter (fun v => v.groupId = some h)).length
      = memberCount db h := by
  unfold memberCount
  apply filter_length_map_eq
  intro v hv
  by_cases hvid : v.id = u0.id
  · have hveq : v = u0 := user_eq_of_id_eq hwf hv hu hvid
    subst hveq
    simp only [nullifyGroup, if_pos hvid]
    simp [hmem]
    omega
  · simp only [nullifyGroup, if_neg hvid]

theorem filter_applyAll_groupId (users : List User) (stmts : List (UserStatus × List Nat))
    (h : Nat) :
    ((users.map (applyAll stmts)).filter (fun v => v.groupId = some h)).length
      = (users.filter (fun v => v.groupId = some h)).length := by
  apply filter_length_map_eq
  intro v hv
  rw [applyAll_groupId]

theorem remove_success_I1 {db : DB} (hwf : db.WF) (hI1 : InvariantI1 db)
    {gid : Nat} {u0 : User} (hu : u0 ∈ db.users) (hmem : u0.groupId = some gid) :
    InvariantI1
      { users := db.users.map (nullifyGroup u0.id)
        groups :=
          if ((db.users.map (nullifyGroup u0.id)).filter
                (fun v => v.groupId = some gid)).length = 0 then
            db.groups.map
              (fun g => if g.id = gid then { g with status := GroupStatus.empty } else g)
          else
            db.groups } := by
  intro g' hg'
  by_cases hrem :
      ((db.users.map (nullifyGroup u0.id)).filter (fun v => v.groupId = some gid)).length = 0
  · rw [if_pos hrem] at hg'
    obtain ⟨g, hg, rfl⟩ := List.mem_map.1 hg'
    by_cases hgi : g.id = gid
    · rw [if_pos hgi]
      simp only [memberCount]
      constructor
      · intro _
        simpa [hgi] using hrem
      · intro _
        trivial
    · rw [if_neg hgi]
      have hcnt :
          memberCount
            { users := db.users.map (nullifyGroup u0.id)
              groups :=
                if ((db.users.map (nullifyGroup u0.id)).filter
                      (fun v => v.groupId = some gid)).length = 0 then
                  db.groups.map
                    (fun g => if g.id = gid then { g with status := GroupStatus.empty } else g)
                else
                  db.groups } g.id = memberCount db g.id := by
        simp only [memberCount]
        exact filter_nullify_other hwf hu hmem hgi
      simp only [memberCount] at hcnt ⊢
      rw [hcnt]
      exact hI1 g hg
  · rw [if_neg hrem] at hg'
    by_cases hgi : g'.id = gid
    · have hbefore : memberCount db gid ≠ 0 := memberCount_pos hu hmem
      have hstat : g'.status ≠ GroupStatus.empty := by
        intro he
        exact hbefore ((hI1 g' hg').1 (by rw [he]) |> (hgi ▸ ·))
      constructor
      · intro he
        exact absurd he hstat
      · intro hz
        exact absurd (hgi ▸ hz) hrem
    · have hcnt :
          ((db.users.map (nullifyGroup u0.id)).filter
            (fun v => v.groupId = some g'.id)).length = memberCount db g'.id :=
        filter_nullify_other hwf hu hmem hgi
      simp only [memberCount] at hcnt ⊢
      rw [hcnt]
      exact hI1 g' hg'

theorem findAllCursor_data (db : DB) (cursor : Option Nat) (limit : Nat) :
    (findAllCursor db cursor limit).data =
      if decide (limit < (cursorFetch db cursor limit).length) = true
      then (cursorFetch db cursor limit).dropLast
      else cursorFetch db cursor limit := rfl

theorem findAllCursor_hasNext (db : DB) (cursor : Option Nat) (limit : Nat) :
    (findAllCursor db cursor limit).hasNext
      = decide (limit < (cursorFetch db cursor limit).length) := rfl

theorem findAllCursor_nextCursor (db : DB) (cursor : Option Nat) (limit : Nat) :
    (findAllCursor db cursor limit).nextCursor =
      if decide (limit < (cursorFetch db cursor limit).length) = true
      then (((findAllCursor db cursor limit).data).getLast?).map User.id
      else none := rfl

theorem remove_db_WF {db : DB} (hwf : db.WF) (gid uid : Nat) :
    (removeUserFromGroup db gid uid).db.WF := by
  by_cases hg : ∃ g ∈ db.groups, g.id = gid
  · obtain ⟨g0, hg0, hgid⟩ := hg
    by_cases hu : ∃ u ∈ db.users, u.id = uid
    · obtain ⟨u0, hu0, huid⟩ := hu
      by_cases hmem : u0.groupId = some gid
      · rw [remove_success_eq hwf hg0 hgid hu0 huid hmem]
        unfold DB.WF
        constructor
        · exact pairwise_id_map (nullifyGroup_id uid) hwf.1
        · dsimp only
          split
          · exact pairwise_gid_map (fun g => by split <;> rfl) hwf.2
          · exact hwf.2
      · rw [remove_conflict hwf hg0 hgid hu0 huid hmem]
        exact hwf
    · push_neg at hu
      rw [remove_user_not_found hwf hg0 hgid hu]
      exact hwf
  · push_neg at hg
    rw [remove_group_not_found hg]
    exact hwf

/-! Claim theorems -/

/-- Claim C9: For every well-formed state, every limit in [1,100] and every
offset, offset pagination (accounts and groups) returns the ascending-identity
slice `[offset, offset+limit)` of the full table together with the total row
count, and concatenating consecutive pages equals the matching slice of one
larger page (so pages `[4,4,4]` over 12 rows tile the limit-12 result). -/
theorem offsetPagination_correct (db : DB) (limit offset : Nat) (hwf : db.WF)
    (hlim : 1 ≤ limit ∧ limit ≤ 100) :
    (usersFindAll db limit offset).data = (db.users.drop offset).take limit ∧
    (usersFindAll db limit offset).total = db.users.length ∧
    ((usersFindAll db limit offset).data).Pairwise (fun a b => a.id < b.id) ∧
    (groupsFindAll db limit offset).data = (db.groups.drop offset).take limit ∧
    (groupsFindAll db limit offset).total = db.groups.length ∧
    ((groupsFindAll db limit offset).data).Pairwise (fun a b => a.id < b.id) ∧
    (∀ l1 l2 o : Nat,
      (usersFindAll db (l1 + l2) o).data
        = (usersFindAll db l1 o).data ++ (usersFindAll db l2 (o + l1)).data) ∧
    (∀ l1 l2 o : Nat,
      (groupsFindAll db (l1 + l2) o).data
        = (groupsFindAll db l1 o).data ++ (groupsFindAll db l2 (o + l1)).data) := by
  refine ⟨rfl, rfl, ?_, rfl, rfl, ?_, ?_, ?_⟩
  · have hsub : List.Sublist ((db.users.drop offset).take limit) db.users :=
      (List.take_sublist _ _).trans (List.drop_sublist _ _)
    exact hwf.1.sublist hsub
  · have hsub : List.Sublist ((db.groups.drop offset).take limit) db.groups :=
      (List.take_sublist _ _).trans (List.drop_sublist _ _)
    exact hwf.2.sublist hsub
  · intro l1 l2 o
    show (db.users.drop o).take (l1 + l2)
        = (db.users.drop o).take l1 ++ (db.users.drop (o + l1)).take l2
    rw [List.take_add, List.drop_drop]
  · intro l1 l2 o
    show (db.groups.drop o).take (l1 + l2)
        = (db.groups.drop o).take l1 ++ (db.groups.drop (o + l1)).take l2
    rw [List.take_add, List.drop_drop]

theorem offsetPagination_correct_witness :
    exDb.WF ∧ (1 ≤ 2 ∧ 2 ≤ 100) ∧
    (usersFindAll exDb 2 1).data = (exDb.users.drop 1).take 2 :=
  ⟨by decide, by decide, (offsetPagination_correct exDb 2 1 (by decide) (by decide)).1⟩

/-- Claim C8: A bulk request in which some identity appears more than once is
rejected with the duplicate-ids `BadRequestException` (VALIDATION_ERROR) before
the transaction opens: the database comes back unchanged, no cache invalidation
is issued, and the outcome is the same for every persisted state. -/
theorem bulk_duplicate_rejected (db : DB) (ups : List (Nat × UserStatus))
    (hdup : ¬ (ups.map Prod.fst).Nodup) :
    bulkUpdateStatuses db ups =
      { db := db
        outcome := Except.error (ApiError.badRequest duplicateIdsMsg)
        events := [] } ∧
    (∀ db' : DB, (bulkUpdateStatuses db' ups).outcome = (bulkUpdateStatuses db ups).outcome) := by
  constructor
  · unfold bulkUpdateStatuses
    rw [if_neg hdup]
  · intro db'
    unfold bulkUpdateStatuses
    rw [if_neg hdup, if_neg hdup]

theorem bulk_duplicate_rejected_witness :
    ¬ (([((1 : Nat), UserStatus.active), (1, UserStatus.blocked)]).map Prod.fst).Nodup ∧
    bulkUpdateStatuses exDb [(1, UserStatus.active), (1, UserStatus.blocked)] =
      { db := exDb
        outcome := Except.error (ApiError.badRequest duplicateIdsMsg)
        events := [] } :=
  ⟨by decide,
   (bulk_duplicate_rejected exDb [(1, UserStatus.active), (1, UserStatus.blocked)] (by decide)).1⟩

/-- Claim C6, counterexample: The claim that every successful bulk status update
invalidates both cache prefixes is false: at this concrete input the bulk
update succeeds, yet only the account-list invalidation is issued — the
group-list prefix is never invalidated by `bulkUpdateStatuses`. -/
theorem bulk_no_groups_invalidation :
    (bulkUpdateStatuses exDb [(1, UserStatus.active)]).outcome = Except.ok 1 ∧
    CacheEvent.groupsList ∉ (bulkUpdateStatuses exDb [(1, UserStatus.active)]).events := by
  decide

/-- Claim C6, amended: After every successful membership removal the core
invalidates both the account-list and group-list cache prefixes; after every
successful bulk status update it invalidates only the account-list prefix. -/
theorem cache_invalidation_events (db : DB) (ups : List (Nat × UserStatus)) (gid uid : Nat) :
    (∀ n, (bulkUpdateStatuses db ups).outcome = Except.ok n →
        (bulkUpdateStatuses db ups).events = [CacheEvent.usersList]) ∧
    ((removeUserFromGroup db gid uid).outcome = none →
        (removeUserFromGroup db gid uid).events
          = [CacheEvent.usersList, CacheEvent.groupsList]) := by
  constructor
  · intro n h
    unfold bulkUpdateStatuses at h ⊢
    by_cases h1 : (ups.map Prod.fst).Nodup
    · rw [if_pos h1] at h ⊢
      by_cases h2 : (existingUsers db (ups.map Prod.fst)).length = (ups.map Prod.fst).length
      · rw [if_pos h2]
      · rw [if_neg h2] at h
        cases h
    · rw [if_neg h1] at h
      cases h
  · intro h
    cases hfg : db.groups.find? (fun g => g.id = gid) with
    | none =>
      simp only [removeUserFromGroup, hfg] at h
      cases h
    | some g0 =>
      cases hfu : db.users.find? (fun u => u.id = uid) with
      | none =>
        simp only [removeUserFromGroup, hfg, hfu] at h
        cases h
      | some u0 =>
        by_cases hmem : u0.groupId = some gid
        · simp only [removeUserFromGroup, hfg, hfu]
          rw [if_pos hmem]
        · simp only [removeUserFromGroup, hfg, hfu] at h
          rw [if_neg hmem] at h
          cases h

theorem cache_invalidation_events_witness :
    (removeUserFromGroup exDb 2 3).outcome = none ∧
    (removeUserFromGroup exDb 2 3).events = [CacheEvent.usersList, CacheEvent.groupsList] ∧
    (bulkUpdateStatuses exDb [(5, UserStatus.active)]).outcome = Except.ok 1 ∧
    (bulkUpdateStatuses exDb [(5, UserStatus.active)]).events = [CacheEvent.usersList] :=
  ⟨by decide,
   (cache_invalidation_events exDb [(5, UserStatus.active)] 2 3).2 (by decide),
   by decide,
   (cache_invalidation_events exDb [(5, UserStatus.active)] 2 3).1 1 (by decide)⟩

/-- Claim C4, counterexample: The claim tolerates a cursor equal to a deleted
identity; the implementation does not.  In `exDb` (user ids 1, 2, 3, 5) the
cursor 4 is a valid absent identity and limit 1 is in range, the spec-described
page `(rowsAfter ...).take 1` contains user 5, yet `findAllCursor` returns an
empty page because Prisma's positional cursor finds no row with id 4. -/
theorem cursor_gap_counterexample :
    exDb.WF ∧
    (findAllCursor exDb (some 4) 1).data = [] ∧
    (rowsAfter exDb (some 4)).take 1 ≠ [] := by
  decide

/-- Claim C4, amended: For every well-formed state, limit in [1,100] and cursor
absent or ≥ 1: when the cursor is absent or names an existing row, cursor
pagination returns in ascending identity order up to `limit` rows with identity
strictly greater than the cursor (all rows when absent), `hasNext` holds iff
more than `limit` such rows exist (the extra fetched row being discarded), and
`nextCursor` is the identity of the last returned row when `hasNext` and null
otherwise; when the cursor is present but no row bears that identity (a deleted
cursor row), the page is empty with `hasNext` false and `nextCursor` null. -/
theorem cursorPagination_correct (db : DB) (cursor : Option Nat) (limit : Nat)
    (hwf : db.WF) (hlim : 1 ≤ limit ∧ limit ≤ 100)
    (hcur : cursor = none ∨ ∃ c, cursor = some c ∧ 1 ≤ c) :
    ((cursor = none ∨ ∃ c, cursor = some c ∧ ∃ u ∈ db.users, u.id = c) →
      (findAllCursor db cursor limit).data = (rowsAfter db cursor).take limit ∧
      ((findAllCursor db cursor limit).hasNext = true ↔
        limit < (rowsAfter db cursor).length) ∧
      ((findAllCursor db cursor limit).data).Pairwise (fun a b => a.id < b.id) ∧
      ((findAllCursor db cursor limit).hasNext = true →
        (findAllCursor db cursor limit).data ≠ [] ∧
        (findAllCursor db cursor limit).nextCursor
          = (((findAllCursor db cursor limit).data).getLast?).map User.id) ∧
      ((findAllCursor db cursor limit).hasNext = false →
        (findAllCursor db cursor limit).nextCursor = none)) ∧
    (∀ c, cursor = some c → (∀ u ∈ db.users, u.id ≠ c) →
      findAllCursor db cursor limit =
        { data := [], nextCursor := none, hasNext := false }) := by
  constructor
  · intro hexist
    have hcur' : cursor = none ∨ ∃ c, cursor = some c ∧ 1 ≤ c ∧ ∃ u ∈ db.users, u.id = c := by
      rcases hexist with rfl | ⟨c, rfl, u, hu, hid⟩
      · exact Or.inl rfl
      · rcases hcur with h | ⟨c', hc', hc1⟩
        · cases h
        · cases Option.some.inj hc'
          exact Or.inr ⟨c, rfl, hc1, u, hu, hid⟩
    have hfetch := cursorFetch_eq_rowsAfter hwf cursor limit hcur'
    have hdata : (findAllCursor db cursor limit).data = (rowsAfter db cursor).take limit := by
      rw [findAllCursor_data, hfetch, page_data_eq_take]
    have hnext : ((findAllCursor db cursor limit).hasNext = true ↔
        limit < (rowsAfter db cursor).length) := by
      rw [findAllCursor_hasNext, hfetch]
      rw [decide_eq_true_eq]
      exact fetched_length_lt_iff _ _
    refine ⟨hdata, hnext, ?_, ?_, ?_⟩
    · rw [hdata]
      have hsubrows : List.Sublist (rowsAfter db cursor) db.users := by
        unfold rowsAfter
        cases cursor with
        | none => exact List.Sublist.refl _
        | some c => exact List.filter_sublist _
      have hsub : List.Sublist ((rowsAfter db cursor).take limit) db.users :=
        (List.take_sublist _ _).trans hsubrows
      exact hwf.1.sublist hsub
    · intro hhn
      constructor
      · rw [hdata]
        have hlt : limit < (rowsAfter db cursor).length := hnext.1 hhn
        have hlen : ((rowsAfter db cursor).take limit).length = limit := by
          rw [List.length_take]
          omega
        intro hnil
        rw [hnil] at hlen
        simp at hlen
        omega
      · rw [findAllCursor_nextCursor]
        rw [if_pos]
        rw [findAllCursor_hasNext] at hhn
        exact hhn
    · intro hhn
      rw [findAllCursor_nextCursor]
      rw [if_neg]
      rw [findAllCursor_hasNext] at hhn
      simp [hhn]
  · intro c hc hnone
    subst hc
    have hc0 : ¬ c = 0 := by
      rcases hcur with h | ⟨c', hc', hc1⟩
      · cases h
      · cases Option.some.inj hc'
        omega
    have hany : db.users.any (fun u => u.id = c) = false := by
      rw [List.any_eq_false]
      intro u hu
      simp [hnone u hu]
    have hfetch : cursorFetch db (some c) limit = [] := by
      simp only [cursorFetch]
      rw [if_neg hc0, hany]
      simp
    simp [findAllCursor, hfetch]

theorem cursorPagination_correct_witness :
    exDb.WF ∧ (1 ≤ 1 ∧ 1 ≤ 100) ∧
    (findAllCursor exDb (some 2) 1).data = (rowsAfter exDb (some 2)).take 1 :=
  ⟨by decide, by decide,
   ((cursorPagination_correct exDb (some 2) 1 (by decide) (by decide)
      (Or.inr ⟨2, rfl, by decide⟩)).1
      (Or.inr ⟨2, rfl, by decide⟩)).1⟩

/-- Claim C5: `remove(groupId, userId)` fails NOT_FOUND when the group does not
exist or (group existing) the account does not exist; when both exist but the
account's current `groupId` differs from `groupId` (null or another group —
in particular on a second invocation for a pair already removed) it fails
CONFLICT; each failure returns the database unchanged (transaction rollback)
and issues no cache invalidation. -/
theorem remove_failure_cases (db : DB) (gid uid : Nat) (hwf : db.WF) :
    ((∀ g ∈ db.groups, g.id ≠ gid) →
      removeUserFromGroup db gid uid =
        { db := db
          outcome := some (ApiError.notFound (groupNotFoundMsg gid))
          events := [] }) ∧
    ((∃ g ∈ db.groups, g.id = gid) → (∀ u ∈ db.users, u.id ≠ uid) →
      removeUserFromGroup db gid uid =
        { db := db
          outcome := some (ApiError.notFound (userNotFoundMsg uid))
          events := [] }) ∧
    ((∃ g ∈ db.groups, g.id = gid) →
      ∀ u0 ∈ db.users, u0.id = uid → u0.groupId ≠ some gid →
        removeUserFromGroup db gid uid =
          { db := db
            outcome := some (ApiError.conflict (notMemberMsg gid uid))
            events := [] }) ∧
    (∀ g0 ∈ db.groups, ∀ u0 ∈ db.users, g0.id = gid → u0.id = uid →
      u0.groupId = some gid →
        removeUserFromGroup (removeUserFromGroup db gid uid).db gid uid =
          { db := (removeUserFromGroup db gid uid).db
            outcome := some (ApiError.conflict (notMemberMsg gid uid))
            events := [] }) := by
  refine ⟨?_, ?_, ?_, ?_⟩
  · intro hall
    exact remove_group_not_found hall
  · rintro ⟨g0, hg0, hgid⟩ hall
    exact remove_user_not_found hwf hg0 hgid hall
  · rintro ⟨g0, hg0, hgid⟩ u0 hu0 huid hne
    exact remove_conflict hwf hg0 hgid hu0 huid hne
  · intro g0 hg0 u0 hu0 hgid huid hmem
    have hwf' : (removeUserFromGroup db gid uid).db.WF := remove_db_WF hwf gid uid
    have hr := remove_success_eq hwf hg0 hgid hu0 huid hmem
    rw [hr] at hwf' ⊢
    set users' := db.users.map (nullifyGroup uid) with husers
    set groups' :=
      if (users'.filter (fun v => v.groupId = some gid)).length = 0 then
        db.groups.map (fun g => if g.id = gid then { g with status := GroupStatus.empty } else g)
      else db.groups with hgroups
    have hu' : nullifyGroup uid u0 ∈ users' := List.mem_map_of_mem _ hu0
    have huid' : (nullifyGroup uid u0).id = uid := by
      rw [nullifyGroup_id]
      exact huid
    have hnullid : (nullifyGroup uid u0).groupId = none := by
      unfold nullifyGroup
      rw [if_pos huid]
    have hnomem : (nullifyGroup uid u0).groupId ≠ some gid := by
      rw [hnullid]
      intro h
      cases h
    have hg' : ∃ g1 ∈ groups', g1.id = gid := by
      rw [hgroups]
      split
      · exact ⟨if g0.id = gid then { g0 with status := GroupStatus.empty } else g0,
          List.mem_map_of_mem _ hg0, by rw [if_pos hgid]; exact hgid⟩
      · exact ⟨g0, hg0, hgid⟩
    obtain ⟨g1, hg1, hgid1⟩ := hg'
    exact remove_conflict hwf' hg1 hgid1 hu' huid' hnomem

theorem remove_failure_cases_witness :
    exDb.WF ∧
    removeUserFromGroup exDb 9 1 =
      { db := exDb
        outcome := some (ApiError.notFound (groupNotFoundMsg 9))
        events := [] } ∧
    removeUserFromGroup exDb 2 1 =
      { db := exDb
        outcome := some (ApiError.conflict (notMemberMsg 2 1))
        events := [] } :=
  ⟨by decide,
   (remove_failure_cases exDb 9 1 (by decide)).1 (by decide),
   (remove_failure_cases exDb 2 1 (by decide)).2.2.1 (by decide)
     { id := 1, username := "alice", status := UserStatus.pending, groupId := some 1 }
     (by decide) (by decide) (by decide)⟩

/-- Claim C3: On every successful `remove(groupId, userId)` (group and account
exist and the account's `groupId` equals `groupId`): the call succeeds, the
only users-table change is nulling that account's `groupId`, and the group's
status is set to `empty` when the count of remaining accounts referencing the
group is zero, the groups table being left entirely unchanged otherwise. -/
theorem remove_success_postcondition (db : DB) (gid uid : Nat) (hwf : db.WF)
    (hg : ∃ g ∈ db.groups, g.id = gid)
    (hu : ∃ u ∈ db.users, u.id = uid ∧ u.groupId = some gid) :
    (removeUserFromGroup db gid uid).outcome = none ∧
    (removeUserFromGroup db gid uid).db.users = db.users.map (nullifyGroup uid) ∧
    (∀ v ∈ (removeUserFromGroup db gid uid).db.users, v.id = uid → v.groupId = none) ∧
    (memberCount (removeUserFromGroup db gid uid).db gid = 0 →
      ∀ g ∈ (removeUserFromGroup db gid uid).db.groups, g.id = gid →
        g.status = GroupStatus.empty) ∧
    (memberCount (removeUserFromGroup db gid uid).db gid ≠ 0 →
      (removeUserFromGroup db gid uid).db.groups = db.groups) := by
  obtain ⟨g0, hg0, hgid⟩ := hg
  obtain ⟨u0, hu0, huid, hmem⟩ := hu
  have hr := remove_success_eq hwf hg0 hgid hu0 huid hmem
  rw [hr]
  refine ⟨rfl, rfl, ?_, ?_, ?_⟩
  · intro v hv hvid
    obtain ⟨w, hw, rfl⟩ := List.mem_map.1 hv
    by_cases hwid : w.id = uid
    · unfold nullifyGroup
      rw [if_pos hwid]
    · rw [nullifyGroup_id] at hvid
      exact absurd hvid hwid
  · intro hzero
    have hcond :
        ((db.users.map (nullifyGroup uid)).filter (fun v => v.groupId = some gid)).length
          = 0 := by
      simpa [memberCount] using hzero
    intro g hgmem hgid'
    dsimp only at hgmem
    rw [if_pos hcond] at hgmem
    obtain ⟨w, hw, rfl⟩ := List.mem_map.1 hgmem
    by_cases hwid : w.id = gid
    · rw [if_pos hwid]
    · rw [if_neg hwid] at hgid' ⊢
      exact absurd hgid' hwid
  · intro hnz
    have hcond :
        ((db.users.map (nullifyGroup uid)).filter (fun v => v.groupId = some gid)).length
          ≠ 0 := by
      intro h
      apply hnz
      simpa [memberCount] using h
    dsimp only
    rw [if_neg hcond]

theorem remove_success_postcondition_witness :
    exDb.WF ∧
    (∃ g ∈ exDb.groups, g.id = 2) ∧
    (∃ u ∈ exDb.users, u.id = 3 ∧ u.groupId = some 2) ∧
    (removeUserFromGroup exDb 2 3).outcome = none :=
  ⟨by decide, by decide, by decide,
   (remove_success_postcondition exDb 2 3 (by decide) (by decide) (by decide)).1⟩

/-- Claim C2: For every bulk request with pairwise-distinct identities of which
at least one does not exist, the call aborts with the NOT_FOUND error whose
message enumerates exactly the missing identities (all of them, proved by the
second conjunct; at least one, by the third), the database is returned
unchanged by the rollback, and no cache invalidation is issued. -/
theorem bulk_missing_ids_atomic (db : DB) (ups : List (Nat × UserStatus)) (hwf : db.WF)
    (hnd : (ups.map Prod.fst).Nodup)
    (hmiss : ∃ i ∈ ups.map Prod.fst, ∀ u ∈ db.users, u.id ≠ i) :
    bulkUpdateStatuses db ups =
      { db := db
        outcome := Except.error (ApiError.notFound
          (usersNotFoundMsg (missingIds db (ups.map Prod.fst))))
        events := [] } ∧
    missingIds db (ups.map Prod.fst)
      = (ups.map Prod.fst).filter (fun i => decide (∀ u ∈ db.users, u.id ≠ i)) ∧
    missingIds db (ups.map Prod.fst) ≠ [] := by
  obtain ⟨i0, hi0, hmiss0⟩ := hmiss
  have hlt := existing_length_lt hwf hnd hi0 hmiss0
  refine ⟨?_, missingIds_eq, ?_⟩
  · unfold bulkUpdateStatuses
    rw [if_pos hnd, if_neg (by omega)]
  · rw [missingIds_eq]
    intro hnil
    have hmem : i0 ∈ (ups.map Prod.fst).filter (fun i => decide (∀ u ∈ db.users, u.id ≠ i)) :=
      List.mem_filter.2 ⟨hi0, by simpa using hmiss0⟩
    rw [hnil] at hmem
    cases hmem

theorem bulk_missing_ids_atomic_witness :
    exDb.WF ∧
    (([((1 : Nat), UserStatus.active), (9, UserStatus.pending)]).map Prod.fst).Nodup ∧
    bulkUpdateStatuses exDb [(1, UserStatus.active), (9, UserStatus.pending)] =
      { db := exDb
        outcome := Except.error (ApiError.notFound
          (usersNotFoundMsg (missingIds exDb [1, 9])))
        events := [] } :=
  ⟨by decide, by decide,
   (bulk_missing_ids_atomic exDb [(1, UserStatus.active), (9, UserStatus.pending)]
      (by decide) (by decide) ⟨9, by decide, by decide⟩).1⟩

/-- Claim C7: For every bulk request of length 1–500 with pairwise-distinct and
all-existing identities, the call succeeds returning the request length, every
listed account ends at its requested status, and the writes are the batched
per-distinct-status statements: one statement per distinct target status (the
statement statuses are duplicate-free), hence at most 3 write statements. -/
theorem bulk_success_postcondition (db : DB) (ups : List (Nat × UserStatus)) (hwf : db.WF)
    (hlen : 1 ≤ ups.length ∧ ups.length ≤ 500)
    (hnd : (ups.map Prod.fst).Nodup)
    (hall : ∀ i ∈ ups.map Prod.fst, ∃ u ∈ db.users, u.id = i) :
    (bulkUpdateStatuses db ups).outcome = Except.ok ups.length ∧
    (∀ p ∈ ups, ∀ v ∈ (bulkUpdateStatuses db ups).db.users, v.id = p.1 → v.status = p.2) ∧
    ((bulkStatements ups).map Prod.fst).Nodup ∧
    (bulkStatements ups).length ≤ 3 := by
  have hnd' : (ups.map Prod.fst).Nodup := hnd
  have heq : (existingUsers db (ups.map Prod.fst)).length = (ups.map Prod.fst).length :=
    existing_length_eq hwf hnd hall
  have hout : bulkUpdateStatuses db ups =
      { db := { db with users := runStatements db.users (bulkStatements ups) }
        outcome := Except.ok ups.length
        events := [CacheEvent.usersList] } := by
    unfold bulkUpdateStatuses
    rw [if_pos hnd, if_pos heq]
  have hfst : (bulkStatements ups).map Prod.fst = firstKeys (ups.map Prod.snd) := by
    unfold bulkStatements
    rw [List.map_map]
    exact List.map_id _
  refine ⟨by rw [hout], ?_, ?_, ?_⟩
  · intro p hp v hv hvid
    rw [hout] at hv
    dsimp only at hv
    rw [runStatements_eq_map] at hv
    obtain ⟨w, hw, rfl⟩ := List.mem_map.1 hv
    rw [applyAll_id] at hvid
    refine applyAll_status (bulkStatements ups) w p.2 ?_ ?_
    · refine ⟨(p.2, idsForStatus ups p.2), ?_, rfl, ?_⟩
      · unfold bulkStatements
        refine List.mem_map_of_mem _ ?_
        rw [mem_firstKeys]
        exact List.mem_map_of_mem Prod.snd hp
      · rw [hvid]
        exact mem_idsForStatus.2 ⟨p, hp, rfl, rfl⟩
    · intro st hst hwst
      unfold bulkStatements at hst
      obtain ⟨t, ht, rfl⟩ := List.mem_map.1 hst
      obtain ⟨q, hq, hq1, hq2⟩ := mem_idsForStatus.1 hwst
      have hq1' : q.1 = p.1 := by rw [hq1, hvid]
      have hqpair : (p.1, q.2) ∈ ups := by
        have hqe : q = (p.1, q.2) := by
          cases q
          cases hq1'
          rfl
        rw [← hqe]
        exact hq
      have hppair : (p.1, p.2) ∈ ups := by
        have hpe : p = (p.1, p.2) := by cases p; rfl
        rw [← hpe]
        exact hp
      have hsnd : q.2 = p.2 := pair_snd_unique hnd hqpair hppair
      rw [← hsnd, hq2]
  · rw [hfst]
    exact nodup_firstKeys _
  · have : (bulkStatements ups).length = ((bulkStatements ups).map Prod.fst).length := by
      rw [List.length_map]
    rw [this, hfst]
    exact UserStatus.nodup_length_le (nodup_firstKeys _)

theorem bulk_success_postcondition_witness :
    exDb.WF ∧
    (1 ≤ ([((1 : Nat), UserStatus.blocked), (3, UserStatus.pending)]).length ∧
      ([((1 : Nat), UserStatus.blocked), (3, UserStatus.pending)]).length ≤ 500) ∧
    (bulkUpdateStatuses exDb [(1, UserStatus.blocked), (3, UserStatus.pending)]).outcome
      = Except.ok 2 :=
  ⟨by decide, by decide,
   (bulk_success_postcondition exDb [(1, UserStatus.blocked), (3, UserStatus.pending)]
      (by decide) (by decide) (by decide) (by decide)).1⟩

/-- Claim C10: Frame property of a successful bulk status update: the groups
table is untouched, every account keeps its identity, username and group
reference (positionally), and every account not listed in the request is
entirely unchanged (its full row survives). -/
theorem bulk_frame (db : DB) (ups : List (Nat × UserStatus)) (hwf : db.WF)
    (hnd : (ups.map Prod.fst).Nodup)
    (hall : ∀ i ∈ ups.map Prod.fst, ∃ u ∈ db.users, u.id = i) :
    (bulkUpdateStatuses db ups).db.groups = db.groups ∧
    (bulkUpdateStatuses db ups).db.users.map User.id = db.users.map User.id ∧
    (bulkUpdateStatuses db ups).db.users.map User.username = db.users.map User.username ∧
    (bulkUpdateStatuses db ups).db.users.map User.groupId = db.users.map User.groupId ∧
    (∀ v ∈ db.users, v.id ∉ ups.map Prod.fst → v ∈ (bulkUpdateStatuses db ups).db.users) := by
  have heq : (existingUsers db (ups.map Prod.fst)).length = (ups.map Prod.fst).length :=
    existing_length_eq hwf hnd hall
  have husers : (bulkUpdateStatuses db ups).db.users
      = db.users.map (applyAll (bulkStatements ups)) := by
    unfold bulkUpdateStatuses
    rw [if_pos hnd, if_pos heq]
    exact runStatements_eq_map _ _
  have hgroups : (bulkUpdateStatuses db ups).db.groups = db.groups := by
    unfold bulkUpdateStatuses
    rw [if_pos hnd, if_pos heq]
  refine ⟨hgroups, ?_, ?_, ?_, ?_⟩
  · rw [husers, List.map_map]
    refine List.map_congr_left ?_
    intro v _
    exact applyAll_id _ v
  · rw [husers, List.map_map]
    refine List.map_congr_left ?_
    intro v _
    exact applyAll_username _ v
  · rw [husers, List.map_map]
    refine List.map_congr_left ?_
    intro v _
    exact applyAll_groupId _ v
  · intro v hv hnotin
    rw [husers]
    have hfix : applyAll (bulkStatements ups) v = v := by
      refine applyAll_of_not_mem _ _ ?_
      intro st hst hvin
      unfold bulkStatements at hst
      obtain ⟨t, ht, rfl⟩ := List.mem_map.1 hst
      obtain ⟨q, hq, hq1, hq2⟩ := mem_idsForStatus.1 hvin
      exact hnotin (hq1 ▸ List.mem_map_of_mem Prod.fst hq)
    rw [← hfix]
    exact List.mem_map_of_mem _ hv

theorem bulk_frame_witness :
    exDb.WF ∧
    (bulkUpdateStatuses exDb [(2, UserStatus.blocked)]).db.groups = exDb.groups :=
  ⟨by decide,
   (bulk_frame exDb [(2, UserStatus.blocked)] (by decide) (by decide) (by decide)).1⟩

/-- Claim C1: Invariant I1 — a group's status is `empty` iff its live member
count is zero — is preserved by every core operation.  The two pagination
operations are reads: in this embedding their results are values and the
database is untouched, so I1 persists across them by construction.  For the
two mutators, every outcome (commit or rollback) of `bulkUpdateStatuses` and
of `removeUserFromGroup` maps an I1 state to an I1 state. -/
theorem invariantI1_preserved (db : DB) (ups : List (Nat × UserStatus)) (gid uid : Nat)
    (hwf : db.WF) (hI1 : InvariantI1 db) :
    InvariantI1 (bulkUpdateStatuses db ups).db ∧
    InvariantI1 (removeUserFromGroup db gid uid).db := by
  constructor
  · unfold bulkUpdateStatuses
    by_cases h1 : (ups.map Prod.fst).Nodup
    · rw [if_pos h1]
      by_cases h2 : (existingUsers db (ups.map Prod.fst)).length = (ups.map Prod.fst).length
      · rw [if_pos h2]
        intro g hg
        have hcnt : memberCount
            { db with users := runStatements db.users (bulkStatements ups) } g.id
              = memberCount db g.id := by
          simp only [memberCount]
          rw [runStatements_eq_map]
          exact filter_applyAll_groupId _ _ _
        rw [hcnt]
        exact hI1 g hg
      · rw [if_neg h2]
        exact hI1
    · rw [if_neg h1]
      exact hI1
  · by_cases hg : ∃ g ∈ db.groups, g.id = gid
    · obtain ⟨g0, hg0, hgid⟩ := hg
      by_cases hu : ∃ u ∈ db.users, u.id = uid
      · obtain ⟨u0, hu0, huid⟩ := hu
        subst huid
        by_cases hmem : u0.groupId = some gid
        · rw [remove_success_eq hwf hg0 hgid hu0 rfl hmem]
          exact remove_success_I1 hwf hI1 hu0 hmem
        · rw [remove_conflict hwf hg0 hgid hu0 rfl hmem]
          exact hI1
      · push_neg at hu
        rw [remove_user_not_found hwf hg0 hgid hu]
        exact hI1
    · push_neg at hg
      rw [remove_group_not_found hg]
      exact hI1

theorem invariantI1_preserved_witness :
    exDb.WF ∧ InvariantI1 exDb ∧
    InvariantI1 (removeUserFromGroup exDb 2 3).db :=
  ⟨by decide, by decide,
   (invariantI1_preserved exDb [(1, UserStatus.blocked)] 2 3 (by decide) (by decide)).2⟩

end Fetchit
